import Mathlib

/-!
Shallow embedding of the Mastermind zkApp utility circuits (`src/utils.ts`,
re-exported through `src/index.ts`), written against the o1js semantics of
the source:

* `Field` elements are modelled as natural numbers.  Every value these
  functions handle (digits ≤ 9, four-digit numbers ≤ 9999, packed words of
  at most 210 bits) is far below the Pallas base-field modulus (≈ 2^254),
  so natural-number arithmetic is exact — no modular wraparound can occur.
* o1js `Field.toBits(w)` returns the little-endian binary representation
  (bit 0 least significant) and constrains the value to `w` bits, failing
  otherwise; `Field.fromBits` is its little-endian inverse and accepts at
  most 254 bits.  Fallible circuit assertions are modelled with `Option`:
  `none` is a failed assertion / rejected proof.
* Source loops with constant bounds (4 positions, 3 validation rounds) are
  unrolled; a counted `for` loop over chunk starts becomes a map over
  `List.range` of the iteration count.
-/

namespace Mastermind

/-- Constant `MAX_ATTEMPTS` from `src/constants.ts`. -/
def MAX_ATTEMPTS : ℕ := 7

/-- The little-endian value of a bit list: bit 0 is the least significant,
as in o1js `Field.fromBits`. -/
def fromBits (bs : List Bool) : ℕ :=
  bs.foldr (fun b acc => (if b then 1 else 0) + 2 * acc) 0

/-- o1js `Field.fromBits`: accepts at most 254 bits (the field capacity)
and returns the little-endian value. -/
def fieldFromBits (bs : List Bool) : Option ℕ :=
  if bs.length ≤ 254 then some (fromBits bs) else none

/-- o1js `Field.toBits(w)`: the `w` little-endian bits of `n`; the circuit
constrains `n` to `w` bits, so the call fails unless `n < 2 ^ w`.  (o1js
additionally requires `w ≤ 254`; every width used by this repository is at
most 210, so that bound never binds and is not modelled.) -/
def toBits (w n : ℕ) : Option (List Bool) :=
  if n < 2 ^ w then some ((List.range w).map n.testBit) else none

/-- Source `compressCombinationDigits` (utils.ts): weighted base-10 positional sum
of the four digits.  The source only ever applies it to arrays produced by
`Provable.Array(Field, 4)`, which are of length exactly 4, so the shape of
shorter lists is unreachable. -/
def compressCombinationDigits : List ℕ → ℕ
  | d0 :: d1 :: d2 :: d3 :: _ => d0 * 1000 + d1 * 100 + d2 * 10 + d3
  | _ => 0

/-- Source `separateCombinationDigits` (utils.ts): asserts `1000 ≤ v ≤ 9999`,
witnesses the four decimal digits, and asserts that recompressing them
yields the input again. -/
def separateCombinationDigits (combination : ℕ) : Option (List ℕ) :=
  if 1000 ≤ combination ∧ combination ≤ 9999 then
    let digits := [combination / 1000, combination / 100 % 10,
                   combination / 10 % 10, combination % 10]
    if compressCombinationDigits digits = combination then some digits else none
  else none

/-- Source `validateCombination` (utils.ts), loops over `i = 1..3` and `j = i..3`
unrolled: the conjunction of the zero-digit constraints on digits 2–4 and
the six pairwise-distinctness constraints.  `true` means every constraint
holds (the circuit accepts). -/
def validateCombination : List ℕ → Bool
  | d0 :: d1 :: d2 :: d3 :: _ =>
    (!(d1 == 0) && (!(d0 == d1) && !(d0 == d2) && !(d0 == d3))) &&
    (!(d2 == 0) && (!(d1 == d2) && !(d1 == d3))) &&
    (!(d3 == 0) && !(d2 == d3))
  | _ => false

/-- The zero-digit constraint family of `validateCombination`: some
`combinationDigits[i].equals(0).assertFalse(...)` constraint (for
`i = 1, 2, 3`) is violated. -/
def zeroCheckFails : List ℕ → Bool
  | _ :: d1 :: d2 :: d3 :: _ => (d1 == 0) || (d2 == 0) || (d3 == 0)
  | _ => false

/-- The duplicate-digit constraint family of `validateCombination`: some
`combinationDigits[i-1].assertNotEquals(combinationDigits[j], ...)`
constraint (for `1 ≤ i ≤ j ≤ 3`) is violated. -/
def duplicateCheckFails : List ℕ → Bool
  | d0 :: d1 :: d2 :: d3 :: _ =>
    ((d0 == d1) || (d0 == d2) || (d0 == d3)) ||
    ((d1 == d2) || (d1 == d3)) || (d2 == d3)
  | _ => false

/-- Source `serializeClue` (utils.ts): each clue element to 2 bits (failing if an
element does not fit), flattened and recombined into one field value. -/
def serializeClue (clue : List ℕ) : Option ℕ :=
  match clue with
  | [c0, c1, c2, c3] => do
    let b0 ← toBits 2 c0
    let b1 ← toBits 2 c1
    let b2 ← toBits 2 c2
    let b3 ← toBits 2 c3
    fieldFromBits (b0 ++ b1 ++ b2 ++ b3)
  | _ => none

/-- Source `deserializeClue` (utils.ts): split the 8-bit representation into four
2-bit slices `bits.slice(0,2) .. bits.slice(6,8)`. -/
def deserializeClue (serializedClue : ℕ) : Option (List ℕ) :=
  (toBits 8 serializedClue).map fun bits =>
    [fromBits ((bits.drop 0).take 2), fromBits ((bits.drop 2).take 2),
     fromBits ((bits.drop 4).take 2), fromBits ((bits.drop 6).take 2)]

/-- Source `getClueFromGuess` (utils.ts), the 4×4 double loop unrolled: position
`i` accumulates `2` when `guess[i] = solution[i]` (the `i = j` branch) and
`1` for every `j ≠ i` with `guess[i] = solution[j]`, in loop order. -/
def getClueFromGuess : List ℕ → List ℕ → List ℕ
  | g0 :: g1 :: g2 :: g3 :: _, s0 :: s1 :: s2 :: s3 :: _ =>
    [(if g0 = s0 then 1 else 0) * 2 + (if g0 = s1 then 1 else 0) +
       (if g0 = s2 then 1 else 0) + (if g0 = s3 then 1 else 0),
     (if g1 = s0 then 1 else 0) + (if g1 = s1 then 1 else 0) * 2 +
       (if g1 = s2 then 1 else 0) + (if g1 = s3 then 1 else 0),
     (if g2 = s0 then 1 else 0) + (if g2 = s1 then 1 else 0) +
       (if g2 = s2 then 1 else 0) * 2 + (if g2 = s3 then 1 else 0),
     (if g3 = s0 then 1 else 0) + (if g3 = s1 then 1 else 0) +
       (if g3 = s2 then 1 else 0) + (if g3 = s3 then 1 else 0) * 2]
  | _, _ => []

/-- Source `checkIfSolved` (utils.ts), the 4-iteration loop unrolled: `isSolved`
starts `true` and is and-ed with `clue[i].equals(2)` for each position. -/
def checkIfSolved : List ℕ → Bool
  | c0 :: c1 :: c2 :: c3 :: _ =>
    true && (c0 == 2) && (c1 == 2) && (c2 == 2) && (c3 == 2)
  | _ => false

/-- Source `compressTurnCountMaxAttemptSolved` (utils.ts): asserts
`turnCount < 100`, `maxAttempts < 100`, `solvedFlag < 2`, then packs
`turnCount*10000 + (maxAttempts*100 + solvedFlag)`. -/
def compressTurnCountMaxAttemptSolved : List ℕ → Option ℕ
  | t :: m :: s :: _ =>
    if t < 100 ∧ m < 100 ∧ s < 2 then some (t * 10000 + (m * 100 + s))
    else none
  | _ => none

/-- Source `separateTurnCountAndMaxAttemptSolved` (utils.ts): witnesses the three
base-100 digits and asserts that recompressing them (bounds checks
included) yields the input again. -/
def separateTurnCountAndMaxAttemptSolved (value : ℕ) : Option (List ℕ) := do
  let digits := [value / 10000, value / 100 % 100, value % 100]
  let w ← compressTurnCountMaxAttemptSolved digits
  if w = value then some digits else none

/-- The `fields.map((c) => c.toBits(range))` step of `serialize`
(utils.ts): every element to its `range`-bit representation, failing as
soon as one element does not fit. -/
def traverseBits (w : ℕ) : List ℕ → Option (List (List Bool))
  | [] => some []
  | e :: rest => do
    let b ← toBits w e
    let bs ← traverseBits w rest
    pure (b :: bs)

/-- Source `serialize` (utils.ts): each element to `range` bits, flattened in
sequence order and recombined with `Field.fromBits`. -/
def serialize (fields : List ℕ) (range : ℕ) : Option ℕ := do
  let bits ← traverseBits range fields
  fieldFromBits bits.flatten

/-- The chunking loop of `deserialize` (utils.ts):
`for (i = 0; i < packedBits.length; i += chunkSize)` pushes
`packedBits.slice(i, i + chunkSize)`; with step `chunkSize > 0` the loop
runs `⌈length / chunkSize⌉` times. -/
def chunkBits (chunkSize : ℕ) (bs : List Bool) : List (List Bool) :=
  (List.range ((bs.length + chunkSize - 1) / chunkSize)).map fun k =>
    (bs.drop (k * chunkSize)).take chunkSize

/-- Source `deserialize` (utils.ts): read back `size` bits, slice them into
`chunkSize`-bit chunks and convert each chunk back to a field value.  (In
the source each chunk goes through `Field.fromBits`; every chunk size used
by this repository is at most 14 bits, far below the 254-bit capacity, so
the pure `fromBits` is exact here.) -/
def deserialize (serializedField size chunkSize : ℕ) : Option (List ℕ) :=
  (toBits size serializedField).map fun packedBits =>
    (chunkBits chunkSize packedBits).map fromBits

/-- Source `serializeClueHistory` (utils.ts): 8 bits per clue. -/
def serializeClueHistory (clues : List ℕ) : Option ℕ := serialize clues 8

/-- Source `deserializeClueHistory` (utils.ts): 120 bits total, 8 bits per clue. -/
def deserializeClueHistory (serializedClueHistory : ℕ) : Option (List ℕ) :=
  deserialize serializedClueHistory 120 8

/-- Source `serializeCombinationHistory` (utils.ts): 14 bits per combination. -/
def serializeCombinationHistory (combinations : List ℕ) : Option ℕ :=
  serialize combinations 14

/-- Source `deserializeCombinationHistory` (utils.ts): 210 bits total, 14
bits per combination. -/
def deserializeCombinationHistory (serializedCombinationHistory : ℕ) :
    Option (List ℕ) :=
  deserialize serializedCombinationHistory 210 14

/-- Source `getElementAtIndex` (utils.ts): linear scan accumulating
`isMatch * fieldArray[i]` and the number of index matches; asserts that
exactly one position matched. -/
def getElementAtIndex (fieldArray : List ℕ) (index : ℕ) : Option ℕ :=
  let scan :=
    (List.range fieldArray.length).foldl
      (fun acc i =>
        let isMatch : ℕ := if index = i then 1 else 0
        (acc.1 + isMatch * fieldArray.getD i 0, acc.2 + isMatch))
      (0, 0)
  if scan.2 = 1 then some scan.1 else none

/-- Source `updateElementAtIndex` (utils.ts): asserts `index < length`, then
rebuilds the array with `Provable.if(index.equals(i), newValue, old)` at
every position. -/
def updateElementAtIndex (newValue : ℕ) (fieldArray : List ℕ) (index : ℕ) :
    Option (List ℕ) :=
  if index < fieldArray.length then
    some ((List.range fieldArray.length).map fun i =>
      if index = i then newValue else fieldArray.getD i 0)
  else none



@[simp] lemma fromBits_nil : fromBits [] = 0 := rfl

@[simp] lemma fromBits_cons (b : Bool) (l : List Bool) :
    fromBits (b :: l) = (if b then 1 else 0) + 2 * fromBits l := rfl

lemma fromBits_append (a b : List Bool) :
    fromBits (a ++ b) = fromBits a + 2 ^ a.length * fromBits b := by
  induction a with
  | nil => simp
  | cons x a ih =>
    simp only [List.cons_append, fromBits_cons, ih, List.length_cons, pow_succ]
    ring

lemma fromBits_range_testBit (w n : ℕ) :
    fromBits ((List.range w).map n.testBit) = n % 2 ^ w := by
  induction w with
  | zero => simp [Nat.mod_one]
  | succ w ih =>
    rw [List.range_succ, List.map_append, fromBits_append]
    simp only [List.map_cons, List.map_nil, List.length_map, List.length_range, ih]
    rw [Nat.mod_pow_succ]
    congr 1
    simp only [fromBits_cons, fromBits_nil, Nat.testBit_to_div_mod]
    rcases Nat.mod_two_eq_zero_or_one (n / 2 ^ w) with h | h <;> simp [h]

lemma toBits_eq_some {w n : ℕ} (h : n < 2 ^ w) :
    toBits w n = some ((List.range w).map n.testBit) := by
  simp [toBits, h]

lemma fromBits_toBits {w n : ℕ} (h : n < 2 ^ w) :
    fromBits ((List.range w).map n.testBit) = n := by
  rw [fromBits_range_testBit]
  exact Nat.mod_eq_of_lt h


lemma length_four_shape {l : List ℕ} (h : l.length = 4) :
    ∃ a b c d, l = [a, b, c, d] := by
  rcases l with _ | ⟨a, l⟩
  · simp at h
  rcases l with _ | ⟨b, l⟩
  · simp at h
  rcases l with _ | ⟨c, l⟩
  · simp at h
  rcases l with _ | ⟨d, l⟩
  · simp at h
  rcases l with _ | ⟨e, l⟩
  · exact ⟨a, b, c, d, rfl⟩
  · simp only [List.length_cons] at h
    omega

lemma separate_some_shape {v : ℕ} {d : List ℕ}
    (h : separateCombinationDigits v = some d) :
    1000 ≤ v ∧ v ≤ 9999 ∧ d = [v / 1000, v / 100 % 10, v / 10 % 10, v % 10] := by
  simp only [separateCombinationDigits] at h
  split_ifs at h with h1 h2
  · exact ⟨h1.1, h1.2, (Option.some_inj.mp h).symm⟩

lemma compressTurn_eq (t m s : ℕ) :
    compressTurnCountMaxAttemptSolved [t, m, s] =
      if t < 100 ∧ m < 100 ∧ s < 2 then some (t * 10000 + (m * 100 + s))
      else none := by
  show (if t < 100 ∧ m < 100 ∧ s < 2 then some (t * 10000 + (m * 100 + s))
      else none : Option ℕ) = _
  rfl

/-- C7: the zero-digit constraints fail exactly when one of digits 2-4 is
zero, a duplicate constraint fails whenever two digits coincide, and
validation succeeds exactly when digits 2-4 are nonzero and all four
digits are pairwise distinct. -/
theorem validateCombination_spec (d0 d1 d2 d3 : ℕ) :
    (zeroCheckFails [d0, d1, d2, d3] = true ↔ d1 = 0 ∨ d2 = 0 ∨ d3 = 0) ∧
    ((d0 = d1 ∨ d0 = d2 ∨ d0 = d3 ∨ d1 = d2 ∨ d1 = d3 ∨ d2 = d3) →
      duplicateCheckFails [d0, d1, d2, d3] = true) ∧
    (validateCombination [d0, d1, d2, d3] = true ↔
      ((d1 ≠ 0 ∧ d2 ≠ 0 ∧ d3 ≠ 0) ∧
       (d0 ≠ d1 ∧ d0 ≠ d2 ∧ d0 ≠ d3 ∧ d1 ≠ d2 ∧ d1 ≠ d3 ∧ d2 ≠ d3))) := by
  refine ⟨?_, ?_, ?_⟩ <;>
    simp only [zeroCheckFails, duplicateCheckFails, validateCombination,
      Bool.or_eq_true, Bool.and_eq_true, Bool.not_eq_true', beq_eq_false_iff_ne,
      beq_iff_eq, ne_eq] <;>
    tauto

/-- C9: `checkIfSolved` accepts exactly the all-hits clue. -/
theorem checkIfSolved_iff (c0 c1 c2 c3 : ℕ) :
    checkIfSolved [c0, c1, c2, c3] = true ↔
      c0 = 2 ∧ c1 = 2 ∧ c2 = 2 ∧ c3 = 2 := by
  simp only [checkIfSolved, Bool.true_and, Bool.and_eq_true, beq_iff_eq]
  tauto

/-- C8: the packed turn word. -/
theorem turn_codec_spec (t m s : ℕ) :
    (¬ (t < 100 ∧ m < 100 ∧ (s = 0 ∨ s = 1)) →
        compressTurnCountMaxAttemptSolved [t, m, s] = none) ∧
    (t < 100 → m < 100 → (s = 0 ∨ s = 1) →
        compressTurnCountMaxAttemptSolved [t, m, s] =
          some (t * 10000 + m * 100 + s) ∧
        separateTurnCountAndMaxAttemptSolved (t * 10000 + m * 100 + s) =
          some [t, m, s]) := by
  constructor
  · intro h
    rw [compressTurn_eq, if_neg (by omega)]
  · intro ht hm hs
    have hs2 : s < 2 := by omega
    have e0 : (t * 10000 + m * 100 + s) / 10000 = t := by omega
    have e1 : (t * 10000 + m * 100 + s) / 100 % 100 = m := by omega
    have e2 : (t * 10000 + m * 100 + s) % 100 = s := by omega
    have epack : t * 10000 + (m * 100 + s) = t * 10000 + m * 100 + s := by ring
    refine ⟨by rw [compressTurn_eq, if_pos ⟨ht, hm, hs2⟩, epack], ?_⟩
    have hstep : separateTurnCountAndMaxAttemptSolved (t * 10000 + m * 100 + s) =
        (compressTurnCountMaxAttemptSolved
            [(t * 10000 + m * 100 + s) / 10000,
             (t * 10000 + m * 100 + s) / 100 % 100,
             (t * 10000 + m * 100 + s) % 100]).bind
          fun w =>
            if w = t * 10000 + m * 100 + s then
              some [(t * 10000 + m * 100 + s) / 10000,
                    (t * 10000 + m * 100 + s) / 100 % 100,
                    (t * 10000 + m * 100 + s) % 100]
            else none := rfl
    rw [hstep, e0, e1, e2, compressTurn_eq, if_pos ⟨ht, hm, hs2⟩,
      Option.some_bind]
    rw [if_pos epack]


/-- C3 (amended): digits surviving decode-then-validate are decimal digits,
bounded by 9 (not 7). -/
theorem validated_digits_le_nine (v : ℕ) (d : List ℕ)
    (hd : separateCombinationDigits v = some d)
    (hvalid : validateCombination d = true) :
    ∀ x ∈ d, x ≤ 9 := by
  obtain ⟨h1, h2, rfl⟩ := separate_some_shape hd
  intro x hx
  simp only [List.mem_cons, List.not_mem_nil, or_false] at hx
  rcases hx with rfl | rfl | rfl | rfl <;> omega

theorem validated_digits_le_nine_witness : (3 : ℕ) ≤ 9 :=
  validated_digits_le_nine 1234 [1, 2, 3, 4] (by decide) (by decide) 3 (by decide)

/-- C3 counterexample: 1289 decodes to digits 1,2,8,9 and validates, yet
8 and 9 exceed 7. -/
theorem validated_digits_can_exceed_seven :
    separateCombinationDigits 1289 = some [1, 2, 8, 9] ∧
    validateCombination [1, 2, 8, 9] = true ∧
    ¬ (∀ x ∈ [1, 2, 8, 9], x ≤ 7) := by decide

/-- C5: decode-encode round trip both ways. -/
theorem combination_codec_roundtrip (d0 d1 d2 d3 v : ℕ)
    (h0 : d0 ≤ 9) (h1 : 1 ≤ d1) (h1b : d1 ≤ 9) (h2 : 1 ≤ d2) (h2b : d2 ≤ 9)
    (h3 : 1 ≤ d3) (h3b : d3 ≤ 9)
    (hlo : 1000 ≤ compressCombinationDigits [d0, d1, d2, d3])
    (hhi : compressCombinationDigits [d0, d1, d2, d3] ≤ 9999)
    (hv : 1000 ≤ v) (hv2 : v ≤ 9999) :
    separateCombinationDigits (compressCombinationDigits [d0, d1, d2, d3]) =
      some [d0, d1, d2, d3] ∧
    ∃ d, separateCombinationDigits v = some d ∧ compressCombinationDigits d = v := by
  have hsep : ∀ u : ℕ, 1000 ≤ u → u ≤ 9999 →
      separateCombinationDigits u =
        some [u / 1000, u / 100 % 10, u / 10 % 10, u % 10] := by
    intro u hu1 hu2
    simp only [separateCombinationDigits, compressCombinationDigits]
    rw [if_pos ⟨hu1, hu2⟩, if_pos (by omega)]
  have hc : compressCombinationDigits [d0, d1, d2, d3] =
      d0 * 1000 + d1 * 100 + d2 * 10 + d3 := rfl
  constructor
  · rw [hsep _ hlo hhi, hc]
    have e0 : (d0 * 1000 + d1 * 100 + d2 * 10 + d3) / 1000 = d0 := by omega
    have e1 : (d0 * 1000 + d1 * 100 + d2 * 10 + d3) / 100 % 10 = d1 := by omega
    have e2 : (d0 * 1000 + d1 * 100 + d2 * 10 + d3) / 10 % 10 = d2 := by omega
    have e3 : (d0 * 1000 + d1 * 100 + d2 * 10 + d3) % 10 = d3 := by omega
    rw [e0, e1, e2, e3]
  · refine ⟨_, hsep v hv hv2, ?_⟩
    simp only [compressCombinationDigits]
    omega

theorem combination_codec_roundtrip_witness :
    separateCombinationDigits (compressCombinationDigits [1, 2, 3, 4]) =
      some [1, 2, 3, 4] ∧
    ∃ d, separateCombinationDigits 4321 = some d ∧
      compressCombinationDigits d = 4321 :=
  combination_codec_roundtrip 1 2 3 4 4321 (by decide) (by decide) (by decide)
    (by decide) (by decide) (by decide) (by decide) (by decide) (by decide)
    (by decide) (by decide)

/-- C1: the per-position clue formula. -/
theorem getClueFromGuess_spec (guess solution : List ℕ)
    (hg : guess.length = 4) (hs : solution.length = 4) (i : ℕ) (hi : i < 4) :
    (getClueFromGuess guess solution).getD i 0 =
      2 * (if guess.getD i 0 = solution.getD i 0 then 1 else 0) +
        ∑ j ∈ Finset.range 4,
          if j ≠ i ∧ guess.getD i 0 = solution.getD j 0 then 1 else 0 := by
  obtain ⟨g0, g1, g2, g3, rfl⟩ := length_four_shape hg
  obtain ⟨s0, s1, s2, s3, rfl⟩ := length_four_shape hs
  interval_cases i <;>
  · simp only [getClueFromGuess, Finset.sum_range_succ, Finset.sum_range_zero]
    simp
    split_ifs <;> omega

theorem getClueFromGuess_spec_witness :
    (getClueFromGuess [5, 7, 2, 6] [5, 6, 3, 4]).getD 0 0 =
      2 * (if ([5, 7, 2, 6] : List ℕ).getD 0 0 = ([5, 6, 3, 4] : List ℕ).getD 0 0 then 1 else 0) +
        ∑ j ∈ Finset.range 4,
          if j ≠ 0 ∧ ([5, 7, 2, 6] : List ℕ).getD 0 0 = ([5, 6, 3, 4] : List ℕ).getD j 0 then 1
          else 0 :=
  getClueFromGuess_spec [5, 7, 2, 6] [5, 6, 3, 4] (by decide) (by decide) 0 (by decide)


lemma getElement_scan (arr : List ℕ) (index : ℕ) (n : ℕ) :
    (List.range n).foldl
      (fun acc i =>
        let isMatch : ℕ := if index = i then 1 else 0
        (acc.1 + isMatch * arr.getD i 0, acc.2 + isMatch))
      (0, 0) =
    (if index < n then arr.getD index 0 else 0, if index < n then 1 else 0) := by
  induction n with
  | zero => simp
  | succ n ih =>
    rw [List.range_succ, List.foldl_append, ih, List.foldl_cons, List.foldl_nil]
    show ((if index < n then arr.getD index 0 else 0) +
            (if index = n then 1 else 0) * arr.getD n 0,
          (if index < n then 1 else 0) + (if index = n then 1 else 0)) = _
    rcases Nat.lt_trichotomy index n with h | h | h
    · simp only [Prod.mk.injEq]
      split_ifs <;> omega
    · subst h
      simp only [Prod.mk.injEq]
      split_ifs <;> omega
    · simp only [Prod.mk.injEq]
      split_ifs <;> omega

lemma getElementAtIndex_eq (arr : List ℕ) (index : ℕ) :
    getElementAtIndex arr index =
      if index < arr.length then some (arr.getD index 0) else none := by
  simp only [getElementAtIndex]
  rw [getElement_scan]
  by_cases h : index < arr.length <;> simp [h]

/-- C6: read-after-write, frame, and out-of-range failure. -/
theorem element_read_write (arr : List ℕ) (x index : ℕ)
    (h : index < arr.length) :
    ∃ updated, updateElementAtIndex x arr index = some updated ∧
      getElementAtIndex updated index = some x ∧
      (∀ j, j < arr.length → j ≠ index →
        getElementAtIndex updated j = getElementAtIndex arr j) ∧
      ∀ k, arr.length ≤ k →
        getElementAtIndex arr k = none ∧ updateElementAtIndex x arr k = none := by
  have hupd : updateElementAtIndex x arr index =
      some ((List.range arr.length).map fun i =>
        if index = i then x else arr.getD i 0) := by
    simp only [updateElementAtIndex]
    rw [if_pos h]
  set updated := (List.range arr.length).map fun i =>
    if index = i then x else arr.getD i 0 with hupdated
  have hlen : updated.length = arr.length := by simp [hupdated]
  have hget : ∀ j, j < arr.length →
      updated.getD j 0 = if index = j then x else arr.getD j 0 := by
    intro j hj
    rw [List.getD_eq_getElem _ _ (by omega : j < updated.length)]
    simp [hupdated]
  refine ⟨updated, hupd, ?_, ?_, ?_⟩
  · rw [getElementAtIndex_eq, hlen, if_pos h, hget index h, if_pos rfl]
  · intro j hj hne
    rw [getElementAtIndex_eq, getElementAtIndex_eq, hlen, if_pos hj, if_pos hj,
      hget j hj, if_neg fun e => hne e.symm]
  · intro k hk
    constructor
    · rw [getElementAtIndex_eq, if_neg (by omega)]
    · simp only [updateElementAtIndex]
      rw [if_neg (by omega)]

theorem element_read_write_witness :
    ∃ updated, updateElementAtIndex 9 [5, 6, 7] 1 = some updated ∧
      getElementAtIndex updated 1 = some 9 ∧
      (∀ j, j < ([5, 6, 7] : List ℕ).length → j ≠ 1 →
        getElementAtIndex updated j = getElementAtIndex [5, 6, 7] j) ∧
      ∀ k, ([5, 6, 7] : List ℕ).length ≤ k →
        getElementAtIndex [5, 6, 7] k = none ∧
        updateElementAtIndex 9 [5, 6, 7] k = none :=
  element_read_write [5, 6, 7] 9 1 (by decide)


/-- C2 (amended): a combination-history aggregate is 210 = 15 × 14 bits and
deserializes to exactly 15 slots; a clue-history aggregate is 120 = 15 × 8
bits and deserializes to exactly 15 slots. -/
theorem history_fifteen_slots (v u : ℕ) (hv : v < 2 ^ 210) (hu : u < 2 ^ 120) :
    (∃ l, deserializeCombinationHistory v = some l ∧ l.length = 15) ∧
    (∃ l, deserializeClueHistory u = some l ∧ l.length = 15) := by
  constructor
  · have h1 : deserializeCombinationHistory v =
        some ((chunkBits 14 ((List.range 210).map v.testBit)).map fromBits) := by
      rw [deserializeCombinationHistory, deserialize, toBits_eq_some hv]
      rfl
    refine ⟨_, h1, ?_⟩
    simp [chunkBits]
  · have h1 : deserializeClueHistory u =
        some ((chunkBits 8 ((List.range 120).map u.testBit)).map fromBits) := by
      rw [deserializeClueHistory, deserialize, toBits_eq_some hu]
      rfl
    refine ⟨_, h1, ?_⟩
    simp [chunkBits]

theorem history_fifteen_slots_witness :
    (∃ l, deserializeCombinationHistory 0 = some l ∧ l.length = 15) ∧
    (∃ l, deserializeClueHistory 0 = some l ∧ l.length = 15) :=
  history_fifteen_slots 0 0 (pow_pos (by norm_num) 210) (pow_pos (by norm_num) 120)

set_option maxRecDepth 4000 in
/-- C2 counterexample: both history aggregates deserialize to 15 slots,
not 7. -/
theorem history_not_seven_slots :
    deserializeCombinationHistory 0 = some (List.replicate 15 0) ∧
    deserializeClueHistory 0 = some (List.replicate 15 0) ∧
    (List.replicate 15 (0 : ℕ)).length ≠ 7 := by
  refine ⟨by decide, by decide, by decide⟩


lemma traverseBits_eq {w : ℕ} :
    ∀ {fields : List ℕ}, (∀ e ∈ fields, e < 2 ^ w) →
      traverseBits w fields =
        some (fields.map fun e => (List.range w).map e.testBit)
  | [], _ => rfl
  | e :: rest, h => by
    rw [traverseBits, toBits_eq_some (h e (by simp)),
      traverseBits_eq fun x hx => h x (by simp [hx])]
    rfl

lemma fromBits_flatten_map {w : ℕ} :
    ∀ (fields : List ℕ), (∀ e ∈ fields, e < 2 ^ w) →
      fromBits ((fields.map fun e => (List.range w).map e.testBit).flatten) =
        ∑ k ∈ Finset.range fields.length, fields.getD k 0 * 2 ^ (w * k)
  | [], _ => by simp
  | e :: rest, h => by
    rw [List.map_cons, List.flatten_cons, fromBits_append,
      fromBits_toBits (h e (by simp)),
      fromBits_flatten_map rest fun x hx => h x (by simp [hx])]
    simp only [List.length_map, List.length_range, List.length_cons]
    rw [Finset.sum_range_succ' fun k => (e :: rest).getD k 0 * 2 ^ (w * k)]
    simp only [List.getD_cons_succ, List.getD_cons_zero, Nat.mul_zero, pow_zero,
      Nat.mul_one, Nat.mul_succ, pow_add]
    rw [Finset.mul_sum, add_comm]
    congr 1
    exact Finset.sum_congr rfl fun x _ => by ring

/-- C4 (amended): `serialize` is little-endian in the element order —
element 0 occupies the LOWEST-order `W` bits of the aggregate. -/
theorem serialize_little_endian (fields : List ℕ) (w : ℕ)
    (hfit : ∀ e ∈ fields, e < 2 ^ w) (hcap : fields.length * w ≤ 254) :
    serialize fields w =
      some (∑ k ∈ Finset.range fields.length, fields.getD k 0 * 2 ^ (w * k)) := by
  rw [serialize, traverseBits_eq hfit]
  show fieldFromBits _ = _
  rw [fieldFromBits, if_pos, fromBits_flatten_map fields hfit]
  have hlen : ∀ (l : List ℕ),
      ((l.map fun e => (List.range w).map e.testBit).flatten).length =
        l.length * w := by
    intro l
    induction l with
    | nil => simp
    | cons x l ih => simp [ih, Nat.succ_mul, Nat.add_comm]
  rw [hlen]
  exact hcap

theorem serialize_little_endian_witness :
    serialize [1, 2, 3] 2 =
      some (∑ k ∈ Finset.range ([1, 2, 3] : List ℕ).length,
        ([1, 2, 3] : List ℕ).getD k 0 * 2 ^ (2 * k)) :=
  serialize_little_endian [1, 2, 3] 2 (by decide) (by decide)

/-- C4 counterexample: with two 1-bit elements, element 0 lands in the
low-order bit, not the high-order bit the claim's formula demands. -/
theorem serialize_not_big_endian :
    serialize [1, 0] 1 = some 1 ∧
    serialize [1, 0] 1 ≠
      some (1 * 2 ^ (1 * (2 - 1 - 0)) + 0 * 2 ^ (1 * (2 - 1 - 1))) := by decide

lemma clueSerialize_roundtrip (c0 c1 c2 c3 : ℕ)
    (h0 : c0 < 4) (h1 : c1 < 4) (h2 : c2 < 4) (h3 : c3 < 4) :
    serializeClue [c0, c1, c2, c3] = some (c0 + 4 * c1 + 16 * c2 + 64 * c3) ∧
    deserializeClue (c0 + 4 * c1 + 16 * c2 + 64 * c3) = some [c0, c1, c2, c3] := by
  interval_cases c0 <;> interval_cases c1 <;> interval_cases c2 <;>
    interval_cases c3 <;> decide

/-- C10: with a duplicate-free solution every clue entry is at most 2, and
the 2-bit-per-entry clue serialization round-trips losslessly. -/
theorem clue_bound_and_serialization (guess solution : List ℕ)
    (hg : guess.length = 4) (hs : solution.length = 4)
    (hdist : solution.Pairwise (· ≠ ·)) :
    (∀ c ∈ getClueFromGuess guess solution, c ≤ 2) ∧
    ∃ w, serializeClue (getClueFromGuess guess solution) = some w ∧
      deserializeClue w = some (getClueFromGuess guess solution) := by
  obtain ⟨g0, g1, g2, g3, rfl⟩ := length_four_shape hg
  obtain ⟨s0, s1, s2, s3, rfl⟩ := length_four_shape hs
  simp only [List.pairwise_cons, List.forall_mem_cons, List.not_mem_nil,
    false_implies, implies_true, List.Pairwise.nil, and_true] at hdist
  obtain ⟨⟨hd01, hd02, hd03⟩, ⟨hd12, hd13⟩, hd23⟩ := hdist
  have b0 : (if g0 = s0 then 1 else 0) * 2 + (if g0 = s1 then 1 else 0) +
      (if g0 = s2 then 1 else 0) + (if g0 = s3 then 1 else 0) ≤ 2 := by
    split_ifs <;> omega
  have b1 : (if g1 = s0 then 1 else 0) + (if g1 = s1 then 1 else 0) * 2 +
      (if g1 = s2 then 1 else 0) + (if g1 = s3 then 1 else 0) ≤ 2 := by
    split_ifs <;> omega
  have b2 : (if g2 = s0 then 1 else 0) + (if g2 = s1 then 1 else 0) +
      (if g2 = s2 then 1 else 0) * 2 + (if g2 = s3 then 1 else 0) ≤ 2 := by
    split_ifs <;> omega
  have b3 : (if g3 = s0 then 1 else 0) + (if g3 = s1 then 1 else 0) +
      (if g3 = s2 then 1 else 0) + (if g3 = s3 then 1 else 0) * 2 ≤ 2 := by
    split_ifs <;> omega
  constructor
  · intro c hc
    simp only [getClueFromGuess, List.mem_cons, List.not_mem_nil, or_false] at hc
    rcases hc with rfl | rfl | rfl | rfl
    · exact b0
    · exact b1
    · exact b2
    · exact b3
  · have r := clueSerialize_roundtrip _ _ _ _
      (by omega : (if g0 = s0 then 1 else 0) * 2 + (if g0 = s1 then 1 else 0) +
        (if g0 = s2 then 1 else 0) + (if g0 = s3 then 1 else 0) < 4)
      (by omega : (if g1 = s0 then 1 else 0) + (if g1 = s1 then 1 else 0) * 2 +
        (if g1 = s2 then 1 else 0) + (if g1 = s3 then 1 else 0) < 4)
      (by omega : (if g2 = s0 then 1 else 0) + (if g2 = s1 then 1 else 0) +
        (if g2 = s2 then 1 else 0) * 2 + (if g2 = s3 then 1 else 0) < 4)
      (by omega : (if g3 = s0 then 1 else 0) + (if g3 = s1 then 1 else 0) +
        (if g3 = s2 then 1 else 0) + (if g3 = s3 then 1 else 0) * 2 < 4)
    exact ⟨_, r.1, r.2⟩

theorem clue_bound_and_serialization_witness :
    (∀ c ∈ getClueFromGuess [0, 1, 2, 3] [3, 2, 1, 0], c ≤ 2) ∧
    ∃ w, serializeClue (getClueFromGuess [0, 1, 2, 3] [3, 2, 1, 0]) = some w ∧
      deserializeClue w = some (getClueFromGuess [0, 1, 2, 3] [3, 2, 1, 0]) :=
  clue_bound_and_serialization [0, 1, 2, 3] [3, 2, 1, 0]
    (by decide) (by decide) (by decide)

end Mastermind
